import Mathlib

/-!
Verification of the quantum-readout-to-LLR pipeline
(`job3_qutip_bridge.py`, `error_injection_test.py`, `final_demo_gen.py`,
`zero_codeword_test.py`): hex encoding of quantized LLRs, calibration
(rotation / polarity), LLR computation, quantization and the
error-injection generator.
-/

namespace QuantumDecoder

/-! ## Hex encoding (`to_hex` in the Python sources)

`to_hex(val, nbits)` is
`hex((val + (1 << nbits)) % (1 << nbits))[2:].upper().zfill(2)`.
Python `%` on a positive divisor returns a value in `[0, divisor)`
just like `Int.emod`, and `1 << nbits = 2 ^ nbits`. -/

/-- Lowercase hex digits of `m` (what Python `hex(m)[2:]` yields),
uppercased, then left-padded with zeros to width 2 (Python `.zfill(2)`). -/
def hexBody (m : Nat) : String :=
  let s := (Nat.toDigits 16 m).map Char.toUpper
  String.mk (List.replicate (2 - s.length) '0' ++ s)

/-- The `to_hex` helper from the Python sources. -/
def to_hex (val : Int) (nbits : Nat) : String :=
  hexBody ((val + 2 ^ nbits) % (2 ^ nbits)).toNat

/-- Numeric value of one hex character (uppercase letters, as emitted). -/
def hexCharVal (c : Char) : Nat :=
  if '0' ≤ c ∧ c ≤ '9' then c.toNat - '0'.toNat
  else if 'A' ≤ c ∧ c ≤ 'F' then c.toNat - 'A'.toNat + 10
  else 0

/-- Numeric value of a hex string (most significant digit first). -/
def hexStrVal (s : String) : Nat :=
  s.data.foldl (fun a c => 16 * a + hexCharVal c) 0

/-- Whether a character is an uppercase hexadecimal digit. -/
def isUpperHexDigit (c : Char) : Bool :=
  ('0' ≤ c && c ≤ '9') || ('A' ≤ c && c ≤ 'F')

/-- Decoder-side convention (the decoder itself is external to this
repository): parse the two hex digits and re-interpret the unsigned
byte as a signed two's-complement 8-bit value. -/
def decodeHex8 (s : String) : Int :=
  let n := hexStrVal s
  if 128 ≤ n then (n : Int) - 256 else (n : Int)

set_option maxRecDepth 10000 in
theorem roundtrip_fin : ∀ k : Fin 255,
    decodeHex8 (to_hex ((k : Int) - 127) 8) = (k : Int) - 127 := by decide

/-! ## Calibration pipeline (`run_qutip_physics_bridge`, section 5)

The ensemble of integrated signals paired with their ground-truth bits
is modelled as a `List (ℂ × Bool)` (the source keeps two index-aligned
arrays `integrated_signals` and `true_bits`).  `numpy` means and
variances over the complex samples become `cmean` / `cvar`. -/

/-- Slice `integrated_signals[true_bits==b]` : the samples whose ground-truth
bit is `b`. -/
def classSamples (ens : List (ℂ × Bool)) (b : Bool) : List ℂ :=
  (ens.filter (fun p => p.2 == b)).map Prod.fst

/-- Mean (`np.mean`) of a complex vector. -/
noncomputable def cmean (l : List ℂ) : ℂ := l.sum / (l.length : ℂ)

/-- Variance (`np.var`) of a complex vector: mean of `|x - mean|^2` (a real). -/
noncomputable def cvar (l : List ℂ) : ℝ :=
  (l.map (fun z => Complex.normSq (z - cmean l))).sum / (l.length : ℝ)

/-- Mean (`np.mean`) of a complex shot (`integrated_signals[i] = np.mean(noisy_signal)`). -/
noncomputable def integrate (shot : List ℂ) : ℂ := shot.sum / (shot.length : ℂ)

/-- Source line `avg_0 = np.mean(integrated_signals[true_bits==0])`. -/
noncomputable def avg_0 (ens : List (ℂ × Bool)) : ℂ := cmean (classSamples ens false)

/-- Source line `avg_1 = np.mean(integrated_signals[true_bits==1])`. -/
noncomputable def avg_1 (ens : List (ℂ × Bool)) : ℂ := cmean (classSamples ens true)

/-- Source line `rotation_angle = -np.angle(avg_1 - avg_0)`. -/
noncomputable def rotation_angle (ens : List (ℂ × Bool)) : ℝ :=
  -Complex.arg (avg_1 ens - avg_0 ens)

/-- Source line `rotated_signals = integrated_signals * np.exp(1j * rotation_angle)`
(ground-truth bits carried alongside, as the aligned `true_bits` array). -/
noncomputable def rotated_signals (ens : List (ℂ × Bool)) : List (ℂ × Bool) :=
  ens.map (fun p => (p.1 * Complex.exp (Complex.I * (rotation_angle ens : ℂ)), p.2))

/-- The polarity step:
`if np.real(np.mean(rotated_signals[true_bits==0])) < 0: rotated_signals = -rotated_signals`. -/
noncomputable def polarized_signals (ens : List (ℂ × Bool)) : List (ℂ × Bool) :=
  if (cmean (classSamples (rotated_signals ens) false)).re < 0 then
    (rotated_signals ens).map (fun p => (-p.1, p.2))
  else rotated_signals ens

/-- Source line `noise_var = np.var(rotated_signals)` (after the polarity step has
reassigned `rotated_signals`). -/
noncomputable def noise_var (ens : List (ℂ × Bool)) : ℝ :=
  cvar ((polarized_signals ens).map Prod.fst)

/-- Source line `llr_float = (2 * np.real(rotated_signals)) / noise_var`. -/
noncomputable def llr_float (ens : List (ℂ × Bool)) : List ℝ :=
  (polarized_signals ens).map (fun p => 2 * p.1.re / noise_var ens)

/-! ## Quantizer (`llr_fixed = np.clip(llr_float * 16, -127, 127).astype(int)`)

`np.clip(x, lo, hi)` is `min (max x lo) hi`; `.astype(int)` is a C cast,
which truncates toward zero. -/

/-- Clipping, `np.clip(x, lo, hi)`. -/
noncomputable def clipR (lo hi x : ℝ) : ℝ := min (max x lo) hi

/-- Truncation toward zero (`.astype(int)` on a float). -/
noncomputable def truncInt (x : ℝ) : ℤ := if 0 ≤ x then ⌊x⌋ else ⌈x⌉

/-- The quantizer with an explicit scale factor (the source hardwires 16). -/
noncomputable def quantizeGen (scale x : ℝ) : ℤ := truncInt (clipR (-127) 127 (x * scale))

/-- Source line `llr_fixed = np.clip(llr_float * 16, -127, 127).astype(int)`. -/
noncomputable def llr_fixed (ens : List (ℂ × Bool)) : List ℤ :=
  (llr_float ens).map (fun x => quantizeGen 16 x)

/-- Quantizer as the spec sentence of claim C1 words it: multiply by the
scale, round the product toward the nearest integer, clip the result
into `[-127, 127]`. -/
noncomputable def quantizeClaimed (scale x : ℝ) : ℤ :=
  min 127 (max (-127) (round (x * scale)))

/-- Centroid of the class-`b` samples, as the spec words it (mean of the
samples whose ground-truth bit is `b`). -/
noncomputable def centroid (ens : List (ℂ × Bool)) (b : Bool) : ℂ :=
  cmean ((ens.filter (fun p => p.2 == b)).map Prod.fst)

/-! ## Error-injection generator (`error_injection_test.py` and the
identical `final_demo_gen.py`) -/

/-- Source constant `num_bits = 576`. -/
def num_bits : Nat := 576

/-- The 10 fixed injected error positions. -/
def error_indices : List Nat := [10, 50, 100, 150, 200, 250, 300, 350, 400, 450]

/-- Source lines `llr_values = np.full(num_bits, 127)` then
`for idx in error_indices: llr_values[idx] = -127`. -/
def llr_values : List Int :=
  error_indices.foldl (fun acc idx => acc.set idx (-127)) (List.replicate num_bits 127)

/-- The lines written to `llr_input_qutip.mem`: `to_hex(val, 8)` per value. -/
def llr_lines : List String := llr_values.map (fun v => to_hex v 8)

/-- The lines written by `np.savetxt("true_bits_qutip.txt", true_bits, fmt=%d)`
for `true_bits = np.zeros(num_bits, dtype=int)`. -/
def true_bits_lines : List String :=
  (List.replicate num_bits (0 : Nat)).map (fun b => toString b)

/-! ## Helper lemmas -/

theorem classSamples_map (l : List (ℂ × Bool)) (b : Bool) (f : ℂ → ℂ) :
    classSamples (l.map (fun p => (f p.1, p.2))) b = (classSamples l b).map f := by
  induction l with
  | nil => rfl
  | cons p t ih =>
      unfold classSamples at ih ⊢
      simp only [List.map_cons, List.filter_cons]
      by_cases h : p.2 = b
      · simp only [h, beq_self_eq_true, if_true, List.map_cons, ih]
      · have hb : (p.2 == b) = false := by simp [h]
        simp only [hb, Bool.false_eq_true, if_false, ih]

theorem sum_map_neg_list (l : List ℂ) : (l.map (fun z => -z)).sum = -l.sum := by
  induction l with
  | nil => simp
  | cons x t ih => simp [ih]; ring

theorem cmean_map_neg (l : List ℂ) : cmean (l.map (fun z => -z)) = -cmean l := by
  unfold cmean
  rw [List.length_map, sum_map_neg_list, neg_div]

theorem rotated_length (ens : List (ℂ × Bool)) :
    (rotated_signals ens).length = ens.length := List.length_map _ _

theorem polarized_length (ens : List (ℂ × Bool)) :
    (polarized_signals ens).length = ens.length := by
  unfold polarized_signals
  split
  · rw [List.length_map, rotated_length]
  · exact rotated_length ens

theorem llr_float_length (ens : List (ℂ × Bool)) :
    (llr_float ens).length = ens.length := by
  unfold llr_float
  rw [List.length_map, polarized_length]

theorem llr_fixed_length (ens : List (ℂ × Bool)) :
    (llr_fixed ens).length = ens.length := by
  unfold llr_fixed
  rw [List.length_map, llr_float_length]

/-! ## Claims -/

/-- Claim C9: the Integrator (arithmetic mean of the complex time series)
gives the same result on any permutation of the time samples. -/
theorem C9_integration_comm (s t : List ℂ) (h : s.Perm t) :
    integrate s = integrate t := by
  unfold integrate
  rw [h.sum_eq, h.length_eq]

theorem C9_integration_comm_witness :
    ([(1 : ℂ), Complex.I].Perm [Complex.I, 1]) ∧
    integrate [(1 : ℂ), Complex.I] = integrate [Complex.I, 1] :=
  ⟨List.Perm.swap Complex.I 1 [],
   C9_integration_comm _ _ (List.Perm.swap Complex.I 1 [])⟩

/-- Claim C7: for every real LLR input and every scale factor, the
quantizer output lies in `[-127, 127]`; in particular `-128` is never
produced. -/
theorem C7_clip_bounded (scale x : ℝ) :
    -127 ≤ quantizeGen scale x ∧ quantizeGen scale x ≤ 127 := by
  unfold quantizeGen clipR truncInt
  have hlo : (-127 : ℝ) ≤ min (max (x * scale) (-127)) 127 :=
    le_min (le_max_right _ _) (by norm_num)
  have hhi : min (max (x * scale) (-127)) 127 ≤ 127 := min_le_right _ _
  split
  · constructor
    · exact Int.le_floor.mpr (by push_cast; exact hlo)
    · have h := (Int.floor_le (min (max (x * scale) (-127)) 127)).trans hhi
      exact_mod_cast h
  · constructor
    · have h := hlo.trans (Int.le_ceil (min (max (x * scale) (-127)) 127))
      exact_mod_cast h
    · exact Int.ceil_le.mpr (by push_cast; exact hhi)

/-- Claim C1 (amended): the quantizer multiplies by the scale factor 16,
clips the product into `[-127, 127]`, and truncates toward zero (it does
not round to the nearest integer); it is a function of the input alone. -/
theorem C1_quantizer_amended (x : ℝ) :
    quantizeGen 16 x = truncInt (min 127 (max (-127) (16 * x))) := by
  unfold quantizeGen clipR
  rw [max_comm, min_comm, mul_comm]

/-- Claim C1 counterexample: at LLR input `1/10` the code truncates the
clipped product `1.6` to `1`, while the claimed round-to-nearest-then-clip
would give `2`. -/
theorem C1_counterexample :
    quantizeGen 16 (1 / 10) = 1 ∧ quantizeClaimed 16 (1 / 10) = 2 ∧ (1 : ℤ) ≠ 2 := by
  have h85 : ((1 : ℝ) / 10 * 16) = 8 / 5 := by norm_num
  have hfl : ⌊(8 / 5 : ℝ)⌋ = 1 := by
    rw [Int.floor_eq_iff]
    norm_num
  have hrd : round ((8 : ℝ) / 5) = 2 := by
    rw [round_eq, show (8 : ℝ) / 5 + 1 / 2 = 21 / 10 by norm_num, Int.floor_eq_iff]
    norm_num
  refine ⟨?_, ?_, by decide⟩
  · unfold quantizeGen clipR truncInt
    rw [h85, max_eq_left (by norm_num), min_eq_left (by norm_num),
      if_pos (by norm_num), hfl]
  · unfold quantizeClaimed
    rw [h85, hrd, max_eq_right (by norm_num), min_eq_right (by norm_num)]

/-- Claim C2: for every integer `v` in `[-127, 127]`, encoding `v` with
`to_hex(v, 8)` (two uppercase hex digits of `v mod 256`) and decoding the
two hex digits under the two's-complement-on-8-bits convention yields `v`. -/
theorem C2_hex_roundtrip (v : ℤ) (h1 : -127 ≤ v) (h2 : v ≤ 127) :
    decodeHex8 (to_hex v 8) = v := by
  have hk : (v + 127).toNat < 255 := by omega
  have h := roundtrip_fin ⟨(v + 127).toNat, hk⟩
  have hv : ((⟨(v + 127).toNat, hk⟩ : Fin 255) : ℤ) = v + 127 := by
    simp only [Fin.val_mk]
    exact Int.toNat_of_nonneg (by omega)
  rw [hv, add_sub_cancel_right] at h
  exact h

theorem C2_hex_roundtrip_witness :
    (-127 ≤ (-5 : ℤ)) ∧ ((-5 : ℤ) ≤ 127) ∧ decodeHex8 (to_hex (-5) 8) = -5 :=
  ⟨by decide, by decide, C2_hex_roundtrip (-5) (by decide) (by decide)⟩

set_option maxRecDepth 10000 in
theorem hexBody_fin : ∀ m : Fin 256,
    (hexBody m).length = 2 ∧ (hexBody m).data.all isUpperHexDigit = true ∧
      hexStrVal (hexBody m) = m := by decide

/-- Claim C10: `to_hex` with `nbits = 8` is total over all integers: it
returns exactly two uppercase hexadecimal characters whose value is
`v mod 256` (out-of-range inputs are silently wrapped, never rejected). -/
theorem C10_to_hex_total (v : ℤ) :
    (to_hex v 8).length = 2 ∧ (to_hex v 8).data.all isUpperHexDigit = true ∧
      (hexStrVal (to_hex v 8) : ℤ) = v % 256 := by
  have hn : (0 : ℤ) ≤ (v + 256) % 256 := Int.emod_nonneg _ (by norm_num)
  have hl : (v + 256) % 256 < 256 := Int.emod_lt_of_pos _ (by norm_num)
  have hm : ((v + 256) % 256).toNat < 256 := by omega
  have he : to_hex v 8 = hexBody (((v + 256) % 256).toNat) := by
    unfold to_hex
    norm_num
  have h := hexBody_fin ⟨((v + 256) % 256).toNat, hm⟩
  simp only [Fin.val_mk] at h
  rw [he]
  refine ⟨h.1, h.2.1, ?_⟩
  rw [h.2.2]
  rw [Int.toNat_of_nonneg hn]
  exact Int.add_emod_self

/-- Claim C4: for every ensemble with at least one sample of each class,
the rotation angle is the negated argument of `centroid_1 - centroid_0`,
and every sample is rotated by multiplying by `exp(i * rotation_angle)`. -/
theorem C4_rotation_formula (ens : List (ℂ × Bool))
    (h0 : classSamples ens false ≠ []) (h1 : classSamples ens true ≠ []) :
    rotation_angle ens = -Complex.arg (centroid ens true - centroid ens false) ∧
    rotated_signals ens =
      ens.map (fun p => (p.1 * Complex.exp (Complex.I * (rotation_angle ens : ℂ)), p.2)) :=
  ⟨rfl, rfl⟩

/-- A concrete two-sample ensemble with one sample per class. -/
def ensW : List (ℂ × Bool) := [((0 : ℂ), false), ((1 : ℂ), true)]

theorem C4_rotation_formula_witness :
    classSamples ensW false ≠ [] ∧ classSamples ensW true ≠ [] ∧
    (rotation_angle ensW = -Complex.arg (centroid ensW true - centroid ensW false) ∧
     rotated_signals ensW =
       ensW.map (fun p => (p.1 * Complex.exp (Complex.I * (rotation_angle ensW : ℂ)), p.2))) :=
  ⟨by simp [classSamples, ensW], by simp [classSamples, ensW],
   C4_rotation_formula ensW (by simp [classSamples, ensW]) (by simp [classSamples, ensW])⟩

/-- The degenerate single-class ensemble of claim C3 (all ground-truth
bits 0, as for an all-zero codeword). -/
def ensDeg : List (ℂ × Bool) := [((1 : ℂ), false), ((2 : ℂ), false)]

/-- Claim C3 (code behaviour at the failing input): on a single-class
ensemble the bridge raises nothing — the class-1 slice is empty (numpy
takes its mean as NaN, with only a warning) and the pipeline still
produces one quantized output per bit. -/
theorem C3_no_error_raised :
    classSamples ensDeg true = [] ∧ (llr_fixed ensDeg).length = ensDeg.length :=
  ⟨by simp [classSamples, ensDeg], llr_fixed_length ensDeg⟩

/-- Claim C5: after rotation and polarity correction, the mean real part
of the class-0 samples is nonnegative. -/
theorem C5_polarity_invariant (ens : List (ℂ × Bool))
    (h0 : classSamples ens false ≠ []) (h1 : classSamples ens true ≠ []) :
    0 ≤ (cmean (classSamples (polarized_signals ens) false)).re := by
  unfold polarized_signals
  by_cases h : (cmean (classSamples (rotated_signals ens) false)).re < 0
  · rw [if_pos h, classSamples_map, cmean_map_neg, Complex.neg_re]
    linarith
  · rw [if_neg h]
    linarith

theorem C5_polarity_invariant_witness :
    classSamples ensW false ≠ [] ∧ classSamples ensW true ≠ [] ∧
    0 ≤ (cmean (classSamples (polarized_signals ensW) false)).re :=
  ⟨by simp [classSamples, ensW], by simp [classSamples, ensW],
   C5_polarity_invariant ensW (by simp [classSamples, ensW])
     (by simp [classSamples, ensW])⟩

/-- Claim C6: each bit's real LLR is `2 * Re(transformed sample) / variance`,
with a single ensemble variance shared by all bits. -/
theorem C6_llr_formula (ens : List (ℂ × Bool)) (i : Nat)
    (hv : noise_var ens ≠ 0) (hi : i < ens.length) :
    (llr_float ens).getD i 0 =
      2 * (((polarized_signals ens).map Prod.fst).getD i 0).re / noise_var ens := by
  have hp : i < (polarized_signals ens).length := by rwa [polarized_length]
  rw [List.getD_eq_getElem?_getD, List.getD_eq_getElem?_getD]
  unfold llr_float
  rw [List.getElem?_map, List.getElem?_map,
    List.getElem?_eq_getElem hp]
  rfl

theorem avg_0_ensW : avg_0 ensW = 0 := by
  have h : classSamples ensW false = [0] := by simp [classSamples, ensW]
  unfold avg_0
  rw [h]
  unfold cmean
  simp

theorem avg_1_ensW : avg_1 ensW = 1 := by
  have h : classSamples ensW true = [1] := by simp [classSamples, ensW]
  unfold avg_1
  rw [h]
  unfold cmean
  simp

theorem rotation_angle_ensW : rotation_angle ensW = 0 := by
  unfold rotation_angle
  rw [avg_0_ensW, avg_1_ensW]
  simp [Complex.arg_one]

theorem rotated_ensW : rotated_signals ensW = ensW := by
  unfold rotated_signals
  rw [rotation_angle_ensW]
  simp [ensW]

theorem polarized_ensW : polarized_signals ensW = ensW := by
  unfold polarized_signals
  rw [rotated_ensW]
  rw [if_neg]
  have h : classSamples ensW false = [0] := by simp [classSamples, ensW]
  rw [h]
  unfold cmean
  simp

theorem noise_var_ensW : noise_var ensW = 1 / 4 := by
  unfold noise_var
  rw [polarized_ensW]
  have hfst : ensW.map Prod.fst = [(0 : ℂ), 1] := by simp [ensW]
  rw [hfst]
  have hcm : cmean [(0 : ℂ), 1] = ((1 / 2 : ℝ) : ℂ) := by
    unfold cmean
    simp
  unfold cvar
  rw [hcm]
  simp only [List.map_cons, List.map_nil, List.sum_cons, List.sum_nil,
    List.length_cons, List.length_nil]
  rw [show (0 : ℂ) - ((1 / 2 : ℝ) : ℂ) = ((-(1 / 2) : ℝ) : ℂ) by push_cast; ring]
  rw [show (1 : ℂ) - ((1 / 2 : ℝ) : ℂ) = ((1 / 2 : ℝ) : ℂ) by push_cast; ring]
  rw [Complex.normSq_ofReal, Complex.normSq_ofReal]
  norm_num

theorem C6_llr_formula_witness :
    noise_var ensW ≠ 0 ∧ 0 < ensW.length ∧
    (llr_float ensW).getD 0 0 =
      2 * (((polarized_signals ensW).map Prod.fst).getD 0 0).re / noise_var ensW :=
  ⟨by rw [noise_var_ensW]; norm_num, by simp [ensW],
   C6_llr_formula ensW 0 (by rw [noise_var_ensW]; norm_num) (by simp [ensW])⟩

set_option maxRecDepth 100000 in
/-- Claim C8: the error-injection generator with `N = 576` and the 10
fixed indices writes 576 LLR lines, `"81"` at the injected positions and
`"7F"` everywhere else, and 576 ground-truth lines `"0"`. -/
theorem C8_error_injection :
    llr_lines.length = 576 ∧
    llr_lines = (List.range 576).map
      (fun i => if i ∈ error_indices then "81" else "7F") ∧
    true_bits_lines = List.replicate 576 "0" := by
  refine ⟨by decide, by decide, ?_⟩
  unfold true_bits_lines num_bits
  rw [List.map_replicate]
  rfl

end QuantumDecoder
